import Mathlib

/-!
Shallow embedding of the Kumagai anisotropic finite-size charge-correction
module (pycdt/corrections/kumagai_correction.py).  Python floats are
modelled by real numbers; the standard-library error function math.erfc is
an external dependency of the module and is therefore passed to the
embedded definitions as an explicit function parameter; code paths that
signal failure (return None / raise) are modelled with Option or Except.
-/

open scoped BigOperators
open scoped Classical

noncomputable section

abbrev Vec3 := Fin 3 → ℝ

abbrev Mat3 := Matrix (Fin 3) (Fin 3) ℝ

/-- Conversion constant hart_to_ev defined at the top of the module. -/
def hart_to_ev : ℝ := 27.2114

/-- Conversion constant ang_to_bohr defined at the top of the module. -/
def ang_to_bohr : ℝ := 1.8897

/-- np.dot for 3-vectors. -/
def dot3 (u v : Vec3) : ℝ := u 0 * v 0 + u 1 * v 1 + u 2 * v 2

/-- np.dot of a 3x3 matrix with a 3-vector. -/
def mulVec3 (A : Mat3) (v : Vec3) : Vec3 := fun i => dot3 (A i) v

/-- The quadratic form np.dot(v, np.dot(A, v)) used throughout the module. -/
def quadForm (A : Mat3) (v : Vec3) : ℝ := dot3 v (mulVec3 A v)

/-- np.cross for 3-vectors. -/
def cross3 (a b : Vec3) : Vec3 := fun i =>
  if i = 0 then a 1 * b 2 - a 2 * b 1
  else if i = 1 then a 2 * b 0 - a 0 * b 2
  else a 0 * b 1 - a 1 * b 0

/-- np.linalg.norm of a 3-vector. -/
def vnorm (v : Vec3) : ℝ := Real.sqrt (dot3 v v)

/-- Row i of the angstrom lattice matrix scaled to Bohr, as in kumagai_init:
a1, a2, a3 = ang_to_bohr * angset. -/
def bohrRow (M : Mat3) (i : Fin 3) : Vec3 := fun j => ang_to_bohr * M i j

/-- vol = np.dot(a1, np.cross(a2, a3)) over the Bohr rows, as in kumagai_init. -/
def bohrVol (M : Mat3) : ℝ := dot3 (bohrRow M 0) (cross3 (bohrRow M 1) (bohrRow M 2))

/-- One summand of the real-space lattice sum in real_sum:
erfc(gamma * sqrt(loc_res)) / sqrt(determ * loc_res) with
r_vec = i*a1 + j*a2 + k*a3 - r and loc_res the inverse-dielectric quadratic
form of r_vec. -/
def realSummand (erfc : ℝ → ℝ) (a1 a2 a3 r : Vec3) (invdiel : Mat3)
    (determ gamma : ℝ) (i j k : ℤ) : ℝ :=
  let r_vec : Vec3 := fun m => (i : ℝ) * a1 m + (j : ℝ) * a2 m + (k : ℝ) * a3 m - r m
  let loc_res := quadForm invdiel r_vec
  erfc (gamma * Real.sqrt loc_res) / Real.sqrt (determ * loc_res)

/-- Triple sum over the full cube of integer translations -N..N along each
axis, as produced by the three nested for-loops of real_sum. -/
def cubeSum (N : ℕ) (f : ℤ → ℤ → ℤ → ℝ) : ℝ :=
  ∑ i in Finset.Icc (-(N : ℤ)) (N : ℤ), ∑ j in Finset.Icc (-(N : ℤ)) (N : ℤ),
    ∑ k in Finset.Icc (-(N : ℤ)) (N : ℤ), f i j k

/-- The value realpre * r_sum recorded by real_sum for one cube radius N.
The branch on norm(r) distinguishes the r = 0 case (the i = j = k = 0 term
is skipped) from the generic case. -/
def realPartialSum (erfc : ℝ → ℝ) (a1 a2 a3 r : Vec3) (dieltens : Mat3)
    (q gamma : ℝ) (N : ℕ) : ℝ :=
  let invdiel := dieltens⁻¹
  let determ := dieltens.det
  let realpre := q / Real.sqrt determ
  if r = 0 then
    realpre * cubeSum N (fun i j k =>
      if i = 0 ∧ j = 0 ∧ k = 0 then 0
      else realSummand erfc a1 a2 a3 0 invdiel determ gamma i j k)
  else
    realpre * cubeSum N (realSummand erfc a1 a2 a3 r invdiel determ gamma)

/-- The while-loop of real_sum.  N starts at 2; at each pass the partial sum
S N is recorded; if N = 39 (that is, Nmaxlength - 1) the function returns
None (convergence failure); otherwise, once more than three partial sums
exist (N at least 5), the sum is accepted as soon as the change in absolute
value between the two newest partial sums is below the tolerance.  The fuel
argument bounds the recursion and is chosen so that it never runs out
before the N = 39 cap is hit. -/
def rsLoop (tol : ℝ) (S : ℕ → ℝ) : ℕ → ℕ → Option ℝ
  | 0, _ => none
  | fuel + 1, N =>
    if N = 39 then none
    else if 5 ≤ N ∧ |(|S N|) - (|S (N - 1)|)| < tol then some (S N)
    else rsLoop tol S fuel (N + 1)

/-- real_sum(a1, a2, a3, r, q, dieltens, gamma, tolerance): the expanding
real-space lattice sum.  The tolerance is first converted from eV to
Hartree (tolerance /= hart_to_ev). -/
def real_sum (erfc : ℝ → ℝ) (a1 a2 a3 r : Vec3) (q : ℝ) (dieltens : Mat3)
    (gamma tolerance : ℝ) : Option ℝ :=
  rsLoop (tolerance / hart_to_ev)
    (fun N => realPartialSum erfc a1 a2 a3 r dieltens q gamma N) 38 2

/-- The erfc stand-in used for concrete witnesses: the all-zero function. -/
def zfun : ℝ → ℝ := fun _ => 0

/-- The grid stand-in used for concrete witnesses: the all-zero grid. -/
def zgrid : ℕ → ℕ → ℕ → ℝ := fun _ _ _ => 0

/-- anisotropic_pc_energy(structure, g_sum, dieltens, q, gamma, tolerance):
g_part = q * g_sum[0,0,0]; r_part = real_sum at r = [0,0,0]; self-interaction
and surface terms; combined as -q*0.5*hart_to_ev*(r_part + g_part - selfint
- surfterm).  A convergence failure of real_sum propagates (the Python code
would crash on the None). -/
def anisotropic_pc_energy (erfc : ℝ → ℝ) (M : Mat3) (g_sum : ℕ → ℕ → ℕ → ℝ)
    (dieltens : Mat3) (q gamma tolerance : ℝ) : Option ℝ :=
  let a1 := bohrRow M 0
  let a2 := bohrRow M 1
  let a3 := bohrRow M 2
  let vol := bohrVol M
  let g_part := q * g_sum 0 0 0
  (real_sum erfc a1 a2 a3 0 q dieltens gamma tolerance).map fun r_part =>
    -q * 0.5 * hart_to_ev *
      (r_part + g_part - q * Real.pi / (vol * gamma ^ 2)
        - 2 * gamma * q / Real.sqrt (Real.pi * dieltens.det))

/-- The all-zero partial-sum sequence used for concrete witnesses. -/
def zS : ℕ → ℝ := fun _ => 0

/-- The error taxonomy of the potential-alignment step named by the spec.
The code of KumagaiCorrection.potalign never constructs it. -/
inductive PotalignErr where
  | insufficientSampling

/-- np.mean of a list: sum divided by length.  For the empty list numpy
produces NaN (0/0 with a RuntimeWarning); in this real-number embedding
0 / 0 = 0. -/
def npMean (l : List ℝ) : ℝ := l.sum / l.length

/-- The filter selecting the site records flagged OutsideWS, that is, the
records whose distance to the defect is strictly greater than the
Wigner-Seitz radius (line 770 of the module). -/
def filterOutside (wsrad : ℝ) : List (ℝ × ℝ × ℝ) → List (ℝ × ℝ × ℝ)
  | [] => []
  | rec :: rest =>
    if wsrad < rec.1 then rec :: filterOutside wsrad rest
    else filterOutside wsrad rest

/-- The aggregation step of KumagaiCorrection.potalign (lines 817-858):
each site record is a triple (dist, Vqb, Vpc); forcorrection collects
Vqb - Vpc over the records outside the Wigner-Seitz radius, and the result
is -q * np.mean(forcorrection).  The body contains no error path: the
function always returns a value. -/
def potalign_aggregate (q wsrad : ℝ) (recs : List (ℝ × ℝ × ℝ)) :
    Except PotalignErr ℝ :=
  Except.ok (-q * npMean ((filterOutside wsrad recs).map fun rec =>
    rec.2.1 - rec.2.2))

/-- Result type of KumagaiCorrection.correction: either a single rounded
scalar or the [PC, potterm, full] triple of the AllSplit mode. -/
inductive CorrectionOut where
  | scalar (x : ℝ)
  | triple (a b c : ℝ)

/-- round(x, 5).  Python rounds floats half-to-even in binary; this real
model uses the integer rounding of Mathlib at five decimal digits, which
agrees except on exact representation ties. -/
def pyround5 (x : ℝ) : ℝ := round (x * 100000) / 100000

/-- KumagaiCorrection.correction(title=None, partflag): the charge test
comes first (if not self.q), then energy_pc = self.pc() is consumed unless
partflag is potalign and potalign = self.potalign() unless partflag is pc.
The two sub-computations are passed here as the Option-valued results of
the methods (a None models a crash/convergence failure inside them); the
q = 0 branch never touches them. -/
def correction (q : ℝ) (partflag : String) (pcRes paRes : Option ℝ) :
    Option CorrectionOut :=
  if q = 0 then
    some (if partflag = "AllSplit" then CorrectionOut.triple 0 0 0
      else CorrectionOut.scalar 0)
  else if partflag = "pc" then
    pcRes.map fun e => CorrectionOut.scalar (pyround5 e)
  else if partflag = "potalign" then
    paRes.map fun p => CorrectionOut.scalar (pyround5 p)
  else if partflag = "All" then
    pcRes.bind fun e => paRes.map fun p => CorrectionOut.scalar (pyround5 (e + p))
  else
    pcRes.bind fun e => paRes.map fun p =>
      CorrectionOut.triple (pyround5 e) (pyround5 p) (pyround5 (e + p))

/-- One site record of the table produced by disttrans: distance to the
defect, raw cartesian coordinates, minimum-image displacement relative to
the defect, and the two matched site indices. -/
structure GridRec where
  dist : ℝ
  cart : Vec3
  cart_reldef : Vec3
  bulk_site_index : ℕ
  def_site_index : ℕ

/-- The first element of a list attaining the minimum of f, as selected by
a stable sort on f followed by taking the head (the returnclosestr helper
inside disttrans sorts by norm and returns the first entry). -/
def firstMinBy {α : Type} (f : α → ℝ) : List α → Option α
  | [] => none
  | x :: xs =>
    match firstMinBy f xs with
    | none => some x
    | some y => if f y < f x then some y else some x

/-- The 27 lattice translations i*a1 + j*a2 + k*a3 for i, j, k in
[-1, 0, 1], in the iteration order of the three nested loops of
returnclosestr. -/
def transVecs (L : Mat3) : List Vec3 :=
  ([-1, 0, 1] : List ℤ).flatMap fun i =>
    ([-1, 0, 1] : List ℤ).flatMap fun j =>
      ([-1, 0, 1] : List ℤ).map fun k =>
        fun m => (i : ℝ) * L 0 m + (j : ℝ) * L 1 m + (k : ℝ) * L 2 m

/-- returnclosestr(vec) of disttrans: among the 27 images of the defect
position, the vector from the closest image to vec (the entry of minimum
norm, first one on ties since the Python sort is stable). -/
def returnclosestr (L : Mat3) (defcell_def_ccoord vec : Vec3) : Vec3 :=
  ((firstMinBy vnorm ((transVecs L).map fun transvec =>
    fun m => vec m - (defcell_def_ccoord m + transvec m))).getD 0)

/-- The per-site table built by disttrans once a defect position is known:
def_ccoord is the defect position in the bulk cell, defcell_def_ccoord the
one in the defect cell; sites equal to def_ccoord (the defect itself) are
skipped; every other site is matched through closestsites (abstracted as
the parameter cs, returning the matched bulk/defect coordinates and
indices) and located relative to the defect by returnclosestr. -/
def buildGridSites (cs : Vec3 → (Vec3 × ℕ) × (Vec3 × ℕ)) (L : Mat3)
    (def_ccoord defcell_def_ccoord : Vec3) (sitelist : List Vec3) :
    List GridRec :=
  sitelist.filterMap fun s =>
    if s = def_ccoord then none
    else
      let blk := (cs s).1
      let dfs := (cs s).2
      let cart_reldef := returnclosestr L defcell_def_ccoord dfs.1
      some { dist := vnorm cart_reldef, cart := dfs.1,
             cart_reldef := cart_reldef,
             bulk_site_index := blk.2, def_site_index := dfs.2 }

/-- disttrans(struct, defstruct, dim).  The result of find_defect_pos —
repository code outside src, modelled from the spec as the optional defect
coordinate in the bulk cell paired with the optional one in the defect
cell (vacancy: (some b, none); interstitial: (none, some d); antisite or
substitution: (some b, some d); nothing identified: (none, none)) — is the
fdp argument; closestsites, also outside src, is the abstract parameter
cs.  When both components of fdp are None the function logs an error and
returns None; otherwise the missing side is filled from the other and the
site table is built over the longer site list. -/
def disttrans (cs : Vec3 → (Vec3 × ℕ) × (Vec3 × ℕ))
    (fdp : Option Vec3 × Option Vec3) (bulkSites defSites : List Vec3)
    (L : Mat3) : Option (List GridRec) :=
  match fdp with
  | (none, none) => none
  | (some b, none) =>
    some (buildGridSites cs L b b
      (if bulkSites.length ≥ defSites.length then bulkSites else defSites))
  | (none, some d) =>
    some (buildGridSites cs L d d
      (if bulkSites.length ≥ defSites.length then bulkSites else defSites))
  | (some b, some d) =>
    some (buildGridSites cs L b d
      (if bulkSites.length ≥ defSites.length then bulkSites else defSites))

/-- Error outcomes of the gamma search.  In the Python code, exhausted and
instab are the two return-None paths of find_optimal_gamma, encutFail is
the ValueError raised when the cutoff loop passes self.encut, and fuelOut
marks exhaustion of the fuel bounding the modelled loops (the Python
while-loops are unbounded). -/
inductive GErr where
  | fuelOut
  | exhausted
  | encutFail
  | instab

/-- Context of KumagaiBulkInit.find_optimal_gamma: the reciprocal-vector
enumeration genrecip (repository code outside src, modelled from the spec
as an abstract enumeration of the reciprocal lattice vectors with kinetic
energy below the cutoff), the dielectric tensor, the Bohr cell volume, the
tolerance, the energy cutoff bound self.encut, and the fuel for the cutoff
loop. -/
structure GammaEnv where
  grecip : ℝ → List Vec3
  eps : Mat3
  vol : ℝ
  tol : ℝ
  emax : ℝ
  cf : ℕ

/-- get_recippart(encut, gamma): the brute-force reciprocal sum
sum of exp(-G.eps.G / (4 gamma^2)) / (G.eps.G) over genrecip(encut),
scaled by 4 pi / vol.  The imaginary part returned by the code is the
literal 0.0. -/
def get_recippart (env : GammaEnv) (gamma encut : ℝ) : ℝ :=
  (4 * Real.pi / env.vol) *
    ((env.grecip encut).map fun rec =>
      Real.exp (-quadForm env.eps rec / (4 * gamma ^ 2)) / quadForm env.eps rec).sum

/-- The encut convergence loop of do_summation: while the change between
the two newest reciprocal sums exceeds the tolerance (in eV), raise the
cutoff by 10; if the raised cutoff passes self.encut the code raises a
ValueError (encutFail). -/
def convLoop (env : GammaEnv) (R : ℝ → ℝ) : ℕ → ℝ → ℝ → ℝ → Except GErr ℝ
  | 0, c0, c1, _ =>
    if |(|c0|) - (|c1|)| * hart_to_ev > env.tol then Except.error GErr.fuelOut
    else Except.ok c1
  | fuel + 1, c0, c1, encut =>
    if |(|c0|) - (|c1|)| * hart_to_ev > env.tol then
      if encut + 10 > env.emax then Except.error GErr.encutFail
      else convLoop env R fuel c1 (R (encut + 10)) (encut + 10)
    else Except.ok c1

/-- The three outcomes of do_summation(gamma): (recippartreal, gamma) on
success, (None, the Try Again marker) when the converged magnitude is
below 1 eV, and an error. -/
inductive DoSumRes where
  | conv (v gamma : ℝ)
  | tryAgain
  | err (e : GErr)

/-- do_summation(gamma) of find_optimal_gamma: first the cutoff
convergence loop starting from encut = 20 and 30, then the dead imaginary
check (the imaginary part is the literal 0.0), then the magnitude test:
a converged value below 1 eV in magnitude yields Try Again. -/
def do_summation (env : GammaEnv) (gamma : ℝ) : DoSumRes :=
  let R : ℝ → ℝ := fun encut => get_recippart env gamma encut
  match convLoop env R env.cf (R 20) (R 30) 30 with
  | Except.error e => DoSumRes.err e
  | Except.ok v =>
    if |(0 : ℝ)| * hart_to_ev > env.tol then DoSumRes.err GErr.instab
    else if |v| * hart_to_ev < 1 then DoSumRes.tryAgain
    else DoSumRes.conv v gamma

/-- The outer while-loop of find_optimal_gamma: a fixed-point candidate is
accepted, a Try Again candidate is replaced by 1.5 times itself, any other
problem aborts; after the update (and also after an acceptance) the code
returns None as soon as gamma exceeds 50. -/
def gammaLoop (env : GammaEnv) : ℕ → ℝ → Except GErr ℝ
  | 0, _ => Except.error GErr.fuelOut
  | fuel + 1, gamma =>
    match do_summation env gamma with
    | DoSumRes.conv _ g =>
      if gamma > 50 then Except.error GErr.exhausted else Except.ok g
    | DoSumRes.tryAgain =>
      if gamma * 1.5 > 50 then Except.error GErr.exhausted
      else gammaLoop env fuel (gamma * 1.5)
    | DoSumRes.err e => Except.error e

/-- KumagaiBulkInit.find_optimal_gamma: the outer loop started from the
heuristic gamma = 5 / vol^(1/3). -/
def find_optimal_gamma (grecip : ℝ → List Vec3) (M eps : Mat3)
    (tol emax : ℝ) (cf gf : ℕ) : Except GErr ℝ :=
  gammaLoop ⟨grecip, eps, bohrVol M, tol, emax, cf⟩ gf
    (5 / bohrVol M ^ ((1 : ℝ) / 3))

/-- The empty reciprocal-vector enumeration used for concrete witnesses. -/
def grecip0 : ℝ → List Vec3 := fun _ => []

/-- Concrete gamma-search context used for witnesses. -/
def env0 : GammaEnv := ⟨grecip0, 1, 1, 1, 520, 5⟩

/-- The signed grid index of reciprocal_sum: ind[i] = i for i below half
the grid dimension (Python 2 integer division) and i - n for the rest. -/
def wrapIdx (n a : ℕ) : ℤ := if a < n / 2 then (a : ℤ) else (a : ℤ) - (n : ℤ)

/-- Row i of the reciprocal lattice in 1/Bohr: the pymatgen reciprocal
lattice (rows b with b.a = 2 pi) scaled by 1/ang_to_bohr, as in
reciprocal_sum. -/
def recipBohrRow (M : Mat3) (i : Fin 3) : Vec3 := fun m =>
  2 * Real.pi * M⁻¹ m i / ang_to_bohr

/-- The complex array g_array built by reciprocal_sum before the Fourier
transform: the cell at unsigned index (a, b, c) receives the term for the
signed reciprocal-vector multiples (wrapIdx nx a, wrapIdx ny b, wrapIdx nz c)
(numpy negative indexing stores the i - n entries at the same cells);
the all-zero signed triple is skipped, every other one receives
exp(-g.eps.g / (4 gamma^2)) / (g.eps.g). -/
def g_array (M eps : Mat3) (gamma : ℝ) (nx ny nz : ℕ)
    (a : Fin nx) (b : Fin ny) (c : Fin nz) : ℂ :=
  let s := wrapIdx nx (a : ℕ)
  let t := wrapIdx ny (b : ℕ)
  let u := wrapIdx nz (c : ℕ)
  let g : Vec3 := fun m => (s : ℝ) * recipBohrRow M 0 m +
    (t : ℝ) * recipBohrRow M 1 m + (u : ℝ) * recipBohrRow M 2 m
  if s = 0 ∧ t = 0 ∧ u = 0 then 0
  else Complex.ofReal (Real.exp (-quadForm eps g / (4 * gamma ^ 2)) / quadForm eps g)

/-- The forward 3D discrete Fourier transform np.fft.fftn. -/
def dft3 (nx ny nz : ℕ) (g : Fin nx → Fin ny → Fin nz → ℂ)
    (x : Fin nx) (y : Fin ny) (z : Fin nz) : ℂ :=
  ∑ a, ∑ b, ∑ c, g a b c *
    Complex.exp (-2 * Real.pi * Complex.I *
      (((a : ℕ) : ℂ) * ((x : ℕ) : ℂ) / ((nx : ℕ) : ℂ)
        + ((b : ℕ) : ℂ) * ((y : ℕ) : ℂ) / ((ny : ℕ) : ℂ)
        + ((c : ℕ) : ℂ) * ((z : ℕ) : ℂ) / ((nz : ℕ) : ℂ)))

/-- KumagaiBulkInit.reciprocal_sum: the g_array is transformed by the
forward FFT, scaled by 4 pi / vol (vol = latt.volume * ang_to_bohr^3, the
absolute-value volume used by pymatgen), and the real part is returned. -/
def reciprocal_sum (M eps : Mat3) (gamma : ℝ) (nx ny nz : ℕ)
    (x : Fin nx) (y : Fin ny) (z : Fin nz) : ℝ :=
  (((4 * Real.pi / (|M.det| * ang_to_bohr ^ 3) : ℝ) : ℂ) *
    dft3 nx ny nz (g_array M eps gamma nx ny nz) x y z).re

/-- structure.lattice.abc: the length of lattice row i in angstrom. -/
def rowLen (M : Mat3) (i : Fin 3) : ℝ := vnorm (M i)

/-- np.argmin over indices 0..m of f: the lowest index attaining the
minimum (np.argmin returns the first occurrence; a later index replaces
the running best only on a strict improvement). -/
def argminUpTo (f : ℕ → ℝ) : ℕ → ℕ
  | 0 => 0
  | m + 1 => if f (m + 1) < f (argminUpTo f m) then m + 1 else argminUpTo f m

/-- One axis of getgridind: the fractional coordinate is normalised into
[0, 1) by the while-loops (Int.fract), scaled by the axis length, and the
nearest grid point index among m/n*L for m in 0..n-1 is selected by
np.argmin; if even the nearest point is farther than dx * 1.1 the code
raises a ValueError (None). -/
def gridIdx1 (n : ℕ) (L x : ℝ) : Option ℕ :=
  let t := Int.fract x * L
  let f : ℕ → ℝ := fun m => |(m : ℝ) / (n : ℝ) * L - t|
  let ind := argminUpTo f (n - 1)
  if f ind > L / (n : ℝ) * 1.1 then none else some ind

/-- getgridind(structure, dim, r) with the default gridavg = 0: the three
axis indices of the grid point nearest to the relative coordinates r. -/
def getgridind (M : Mat3) (dim : ℕ × ℕ × ℕ) (r : Vec3) : Option (ℕ × ℕ × ℕ) :=
  match gridIdx1 dim.1 (rowLen M 0) (r 0), gridIdx1 dim.2.1 (rowLen M 1) (r 1),
      gridIdx1 dim.2.2 (rowLen M 2) (r 2) with
  | some i, some j, some k => some (i, j, k)
  | _, _, _ => none

/-- structure.lattice.get_fractional_coords(r): the cartesian row vector
times the inverse lattice matrix. -/
def fracCoords (M : Mat3) (r : Vec3) : Vec3 := Matrix.vecMul r M⁻¹

/-- get_g_sum_at_r(g_sum, structure, dim, r): the precomputed grid value at
getgridind of the fractional coordinates of r. -/
def get_g_sum_at_r (g_sum : ℕ → ℕ → ℕ → ℝ) (M : Mat3) (dim : ℕ × ℕ × ℕ)
    (r : Vec3) : Option ℝ :=
  (getgridind M dim (fracCoords M r)).map fun ijk => g_sum ijk.1 ijk.2.1 ijk.2.2

/-- anisotropic_madelung_potential(structure, dim, g_sum, r, dieltens, q,
gamma, tolerance): recippartreal = q * get_g_sum_at_r(...), directpart =
real_sum at r, selfint = q*pi/(vol*gamma^2); the result is
hart_to_ev * (directpart + recippartreal - selfint).  A grid-lookup
ValueError or a convergence failure of real_sum propagates as None. -/
def anisotropic_madelung_potential (erfc : ℝ → ℝ) (M : Mat3)
    (dim : ℕ × ℕ × ℕ) (g_sum : ℕ → ℕ → ℕ → ℝ) (r : Vec3) (dieltens : Mat3)
    (q gamma tolerance : ℝ) : Option ℝ :=
  match get_g_sum_at_r g_sum M dim r with
  | none => none
  | some gval =>
    (real_sum erfc (bohrRow M 0) (bohrRow M 1) (bohrRow M 2) r q dieltens
        gamma tolerance).map fun directpart =>
      hart_to_ev * (directpart + q * gval - q * Real.pi / (bohrVol M * gamma ^ 2))

/-- The concrete nonzero displacement used in the C4 witness. -/
def rhalf : Vec3 := fun m => if m = 0 then 1 / 2 else 0

lemma rsLoop_step (tol : ℝ) (S : ℕ → ℝ) (fuel N : ℕ) :
    rsLoop tol S (fuel + 1) N =
      if N = 39 then none
      else if 5 ≤ N ∧ |(|S N|) - (|S (N - 1)|)| < tol then some (S N)
      else rsLoop tol S fuel (N + 1) := rfl

lemma realPartialSum_zfun (a1 a2 a3 r : Vec3) (dieltens : Mat3)
    (q gamma : ℝ) (N : ℕ) :
    realPartialSum zfun a1 a2 a3 r dieltens q gamma N = 0 := by
  unfold realPartialSum cubeSum realSummand
  split <;> simp [zfun]

lemma rsLoop_zeroS (tol : ℝ) (htol : 0 < tol) (S : ℕ → ℝ) (hS : ∀ n, S n = 0) :
    rsLoop tol S 38 2 = some 0 := by
  have step2 : rsLoop tol S 38 2 = rsLoop tol S 37 3 := by
    rw [show (38 : ℕ) = 37 + 1 from rfl, rsLoop_step,
      if_neg (by norm_num), if_neg (by simp)]
  have step3 : rsLoop tol S 37 3 = rsLoop tol S 36 4 := by
    rw [show (37 : ℕ) = 36 + 1 from rfl, rsLoop_step,
      if_neg (by norm_num), if_neg (by simp)]
  have step4 : rsLoop tol S 36 4 = rsLoop tol S 35 5 := by
    rw [show (36 : ℕ) = 35 + 1 from rfl, rsLoop_step,
      if_neg (by norm_num), if_neg (by simp)]
  have step5 : rsLoop tol S 35 5 = some (S 5) := by
    rw [show (35 : ℕ) = 34 + 1 from rfl, rsLoop_step,
      if_neg (by norm_num), if_pos ⟨by norm_num, by simp [hS]; exact htol⟩]
  rw [step2, step3, step4, step5, hS]

lemma real_sum_zfun (a1 a2 a3 r : Vec3) (q : ℝ) (dieltens : Mat3)
    (gamma tolerance : ℝ) (htol : 0 < tolerance) :
    real_sum zfun a1 a2 a3 r q dieltens gamma tolerance = some 0 := by
  unfold real_sum
  exact rsLoop_zeroS _ (div_pos htol (by norm_num [hart_to_ev]))
    _ (fun n => realPartialSum_zfun a1 a2 a3 r dieltens q gamma n)

lemma realPartialSum_neg (erfc : ℝ → ℝ) (a1 a2 a3 r : Vec3) (dieltens : Mat3)
    (q gamma : ℝ) (N : ℕ) :
    realPartialSum erfc a1 a2 a3 r dieltens (-q) gamma N =
      -realPartialSum erfc a1 a2 a3 r dieltens q gamma N := by
  unfold realPartialSum
  by_cases h : r = 0 <;> simp [h, neg_div, neg_mul]

lemma rsLoop_neg (tol : ℝ) (S : ℕ → ℝ) (fuel N : ℕ) :
    rsLoop tol (fun n => -(S n)) fuel N =
      Option.map (fun x => -x) (rsLoop tol S fuel N) := by
  induction fuel generalizing N with
  | zero => rfl
  | succ f ih =>
    rw [rsLoop_step, rsLoop_step]
    by_cases h39 : N = 39
    · simp [h39]
    · by_cases hc : 5 ≤ N ∧ |(|S N|) - (|S (N - 1)|)| < tol
      · rw [if_neg h39, if_neg h39, if_pos hc, if_pos (by simpa [abs_neg] using hc)]
        rfl
      · rw [if_neg h39, if_neg h39, if_neg hc, if_neg (by simpa [abs_neg] using hc)]
        exact ih (N + 1)

lemma real_sum_neg (erfc : ℝ → ℝ) (a1 a2 a3 r : Vec3) (q : ℝ) (dieltens : Mat3)
    (gamma tolerance : ℝ) :
    real_sum erfc a1 a2 a3 r (-q) dieltens gamma tolerance =
      Option.map (fun x => -x)
        (real_sum erfc a1 a2 a3 r q dieltens gamma tolerance) := by
  unfold real_sum
  have h : (fun N => realPartialSum erfc a1 a2 a3 r dieltens (-q) gamma N) =
      fun N => -(realPartialSum erfc a1 a2 a3 r dieltens q gamma N) :=
    funext fun N => realPartialSum_neg erfc a1 a2 a3 r dieltens q gamma N
  rw [h, rsLoop_neg]

lemma pc_energy_even_aux (erfc : ℝ → ℝ) (M : Mat3) (g_sum : ℕ → ℕ → ℕ → ℝ)
    (dieltens : Mat3) (q gamma tolerance : ℝ) :
    anisotropic_pc_energy erfc M g_sum dieltens (-q) gamma tolerance =
      anisotropic_pc_energy erfc M g_sum dieltens q gamma tolerance := by
  unfold anisotropic_pc_energy
  dsimp only
  rw [real_sum_neg]
  cases real_sum erfc (bohrRow M 0) (bohrRow M 1) (bohrRow M 2) 0 q dieltens
      gamma tolerance with
  | none => rfl
  | some rs => simp only [Option.map_some']; congr 1; ring

lemma bohrVol_one : bohrVol (1 : Mat3) = ang_to_bohr ^ 3 := by
  unfold bohrVol bohrRow cross3 dot3
  simp +decide [Matrix.one_apply]
  ring_nf

lemma pc_trivial_eval (q : ℝ) :
    anisotropic_pc_energy zfun 1 zgrid 1 q 1 1 =
      some (q ^ 2 *
        (0.5 * hart_to_ev * (Real.pi / bohrVol 1 + 2 / Real.sqrt Real.pi))) := by
  unfold anisotropic_pc_energy
  dsimp only
  rw [real_sum_zfun _ _ _ _ _ _ _ _ one_pos, Option.map_some']
  congr 1
  rw [Matrix.det_one, mul_one]
  simp only [zgrid]
  ring_nf

lemma e0_pos :
    0 < 0.5 * hart_to_ev * (Real.pi / bohrVol 1 + 2 / Real.sqrt Real.pi) := by
  rw [bohrVol_one]
  unfold hart_to_ev ang_to_bohr
  have hpi := Real.pi_pos
  have hs : 0 < Real.sqrt Real.pi := Real.sqrt_pos.2 Real.pi_pos
  positivity

/-- Claim C1: for every structure, precomputed reciprocal grid, dielectric
tensor D, charge q, gamma and tolerance, the point-charge energy returned by
anisotropic_pc_energy equals -q * 1/2 * (real-space sum + q * grid value at
the origin index - self-interaction term q*pi/(volume*gamma^2) - surface
term 2*gamma*q/sqrt(pi*det(D))), converted from Hartree to eV by multiplying
with 27.2114.  The hypothesis records that the real-space sum converged to
the value rs. -/
theorem C1_pc_energy_formula (erfc : ℝ → ℝ) (M : Mat3) (g_sum : ℕ → ℕ → ℕ → ℝ)
    (dieltens : Mat3) (q gamma tolerance rs : ℝ)
    (h : real_sum erfc (bohrRow M 0) (bohrRow M 1) (bohrRow M 2) 0 q dieltens
        gamma tolerance = some rs) :
    anisotropic_pc_energy erfc M g_sum dieltens q gamma tolerance =
      some (-q * (1 / 2) *
        (rs + q * g_sum 0 0 0 - q * Real.pi / (bohrVol M * gamma ^ 2)
          - 2 * gamma * q / Real.sqrt (Real.pi * dieltens.det)) * 27.2114) := by
  unfold anisotropic_pc_energy
  dsimp only
  rw [h, Option.map_some']
  congr 1
  unfold hart_to_ev
  ring

/-- Witness for C1 at a concrete input on which the real-space sum converges
(to 0, with the all-zero stand-in for erfc). -/
theorem C1_witness :
    anisotropic_pc_energy zfun 1 zgrid 1 1 1 1 =
      some (-1 * (1 / 2) *
        (0 + 1 * zgrid 0 0 0 - 1 * Real.pi / (bohrVol 1 * 1 ^ 2)
          - 2 * 1 * 1 / Real.sqrt (Real.pi * (1 : Mat3).det)) * 27.2114) :=
  C1_pc_energy_formula zfun 1 zgrid 1 1 1 1 0
    (real_sum_zfun _ _ _ _ _ _ _ _ one_pos)

/-- Counterexample to claim C2 as stated: at a concrete input the
point-charge energies for q = 1 and q = -1 are NOT opposite in sign (they
are equal and nonzero). -/
theorem C2_counterexample :
    ¬ (anisotropic_pc_energy zfun 1 zgrid 1 (-1) 1 1 =
        Option.map (fun x => -x) (anisotropic_pc_energy zfun 1 zgrid 1 1 1 1)) := by
  rw [pc_trivial_eval 1, pc_trivial_eval (-1), Option.map_some']
  intro h
  have h3 := Option.some.inj h
  have he := e0_pos
  nlinarith [h3, he]

/-- Claim C2 as amended: for every fixed structure, reciprocal grid,
dielectric tensor, gamma and tolerance, the point-charge energies computed
for charge q and for charge -q are EQUAL (the energy is an even function of
the charge), not opposite in sign. -/
theorem C2_amended_pc_energy_even (erfc : ℝ → ℝ) (M : Mat3)
    (g_sum : ℕ → ℕ → ℕ → ℝ) (dieltens : Mat3) (q gamma tolerance : ℝ) :
    anisotropic_pc_energy erfc M g_sum dieltens q gamma tolerance =
      anisotropic_pc_energy erfc M g_sum dieltens (-q) gamma tolerance :=
  (pc_energy_even_aux erfc M g_sum dieltens q gamma tolerance).symm

/-- Claim C10: the point-charge energy is an even function of the charge:
the value computed for q equals the value computed for -q, because every
summand (real-space partial sums, the full real-space sum, and the
reciprocal/self/surface terms inside anisotropic_pc_energy) is proportional
to q while the total is multiplied by -q/2. -/
theorem C10_pc_energy_even :
    (∀ (erfc : ℝ → ℝ) (M : Mat3) (g_sum : ℕ → ℕ → ℕ → ℝ) (dieltens : Mat3)
        (q gamma tolerance : ℝ),
        anisotropic_pc_energy erfc M g_sum dieltens (-q) gamma tolerance =
          anisotropic_pc_energy erfc M g_sum dieltens q gamma tolerance) ∧
    (∀ (erfc : ℝ → ℝ) (a1 a2 a3 r : Vec3) (dieltens : Mat3) (q gamma : ℝ)
        (N : ℕ),
        realPartialSum erfc a1 a2 a3 r dieltens (-q) gamma N =
          -realPartialSum erfc a1 a2 a3 r dieltens q gamma N) ∧
    (∀ (erfc : ℝ → ℝ) (a1 a2 a3 r : Vec3) (q : ℝ) (dieltens : Mat3)
        (gamma tolerance : ℝ),
        real_sum erfc a1 a2 a3 r (-q) dieltens gamma tolerance =
          Option.map (fun x => -x)
            (real_sum erfc a1 a2 a3 r q dieltens gamma tolerance)) :=
  ⟨pc_energy_even_aux, realPartialSum_neg, real_sum_neg⟩

/-- Claim C6: the real-space lattice sum expands over successive shells of
lattice translations (the loop recurses from cube radius N to N + 1 while
neither the cap nor the acceptance test fires), accepts the sum once the
change between successive shells falls below the tolerance (from the fifth
shell on, when more than three partial sums exist), is capped at the maximum
shell radius N = 39, and fails (returns None, the ConvergenceError signal)
when the cap is reached without convergence. -/
theorem C6_real_sum_protocol :
    (∀ (erfc : ℝ → ℝ) (a1 a2 a3 r : Vec3) (q : ℝ) (dieltens : Mat3)
        (gamma tolerance : ℝ),
        real_sum erfc a1 a2 a3 r q dieltens gamma tolerance =
          rsLoop (tolerance / hart_to_ev)
            (fun N => realPartialSum erfc a1 a2 a3 r dieltens q gamma N) 38 2) ∧
    (∀ (tol : ℝ) (S : ℕ → ℝ) (fuel N : ℕ),
        N ≠ 39 → ¬(5 ≤ N ∧ |(|S N|) - (|S (N - 1)|)| < tol) →
        rsLoop tol S (fuel + 1) N = rsLoop tol S fuel (N + 1)) ∧
    (∀ (tol : ℝ) (S : ℕ → ℝ) (fuel N : ℕ),
        N ≠ 39 → 5 ≤ N → |(|S N|) - (|S (N - 1)|)| < tol →
        rsLoop tol S (fuel + 1) N = some (S N)) ∧
    (∀ (tol : ℝ) (S : ℕ → ℝ) (fuel : ℕ), rsLoop tol S (fuel + 1) 39 = none) := by
  refine ⟨fun _ _ _ _ _ _ _ _ _ => rfl, ?_, ?_, ?_⟩
  · intro tol S fuel N h39 hc
    rw [rsLoop_step, if_neg h39, if_neg hc]
  · intro tol S fuel N h39 h5 hcv
    rw [rsLoop_step, if_neg h39, if_pos ⟨h5, hcv⟩]
  · intro tol S fuel
    rw [rsLoop_step, if_pos rfl]

/-- Witness for C6: each part of the protocol instantiated at concrete
inputs with every hypothesis discharged. -/
theorem C6_witness :
    (real_sum zfun 0 0 0 0 1 1 1 1 =
      rsLoop ((1 : ℝ) / hart_to_ev)
        (fun N => realPartialSum zfun 0 0 0 0 1 1 1 N) 38 2) ∧
    (rsLoop 1 zS 1 2 = rsLoop 1 zS 0 3) ∧
    (rsLoop 1 zS 1 5 = some (zS 5)) ∧
    (rsLoop 1 zS 1 39 = none) :=
  ⟨C6_real_sum_protocol.1 zfun 0 0 0 0 1 1 1 1,
   C6_real_sum_protocol.2.1 1 zS 0 2 (by norm_num)
     (fun h => absurd h.1 (by norm_num)),
   C6_real_sum_protocol.2.2.1 1 zS 0 5 (by norm_num) (by norm_num)
     (by norm_num [zS]),
   C6_real_sum_protocol.2.2.2 1 zS 0⟩

lemma filterOutside_nil (wsrad : ℝ) (recs : List (ℝ × ℝ × ℝ))
    (h : ∀ rec ∈ recs, ¬(wsrad < rec.1)) : filterOutside wsrad recs = [] := by
  induction recs with
  | nil => rfl
  | cons rec rest ih =>
    unfold filterOutside
    rw [if_neg (h rec (List.mem_cons_self rec rest))]
    exact ih fun x hx => h x (List.mem_cons_of_mem rec hx)

/-- Counterexample to claim C3 as stated: at a concrete input on which no
site record lies outside the Wigner-Seitz radius, potalign does NOT fail
with InsufficientSamplingError; it returns the value -q * np.mean([])
(NaN in floating point, the junk value 0 in this embedding). -/
theorem C3_counterexample :
    (∀ rec ∈ [((1 : ℝ), (2 : ℝ), (3 : ℝ))], ¬((10 : ℝ) < rec.1)) ∧
    potalign_aggregate 1 10 [(1, 2, 3)] = Except.ok 0 := by
  constructor
  · intro rec h
    rw [List.mem_singleton] at h
    subst h
    norm_num
  · unfold potalign_aggregate
    rw [show filterOutside 10 [((1 : ℝ), (2 : ℝ), (3 : ℝ))] = [] from by
      unfold filterOutside
      rw [if_neg (by norm_num)]
      rfl]
    simp [npMean]

/-- Claim C3 as amended: on every input where no site record has distance
to the defect strictly greater than the Wigner-Seitz radius, the
potential-alignment aggregation does not fail; it returns -q times the
mean of an empty list (NaN under IEEE floating point, 0 in this
real-number embedding) instead of raising an InsufficientSamplingError. -/
theorem C3_amended_returns_empty_mean (q wsrad : ℝ)
    (recs : List (ℝ × ℝ × ℝ)) (h : ∀ rec ∈ recs, ¬(wsrad < rec.1)) :
    potalign_aggregate q wsrad recs = Except.ok (-q * npMean []) := by
  unfold potalign_aggregate
  rw [filterOutside_nil wsrad recs h]
  rfl

/-- Witness for the amended C3 at a concrete input. -/
theorem C3_amended_witness :
    potalign_aggregate 2 10 [(1, 2, 3)] = Except.ok (-2 * npMean []) :=
  C3_amended_returns_empty_mean 2 10 [(1, 2, 3)] (by
    intro rec h
    rw [List.mem_singleton] at h
    subst h
    norm_num)

/-- Claim C9: for every partflag, if the defect charge q is zero the
correction operation returns exactly 0.0 (or the [0,0,0] triple for the
AllSplit output mode) without performing any lattice or reciprocal
summation: the result is the same for every value of the point-charge and
potential-alignment sub-results, including the failing value none. -/
theorem C9_zero_charge_short_circuit :
    ∀ (partflag : String) (pcRes paRes : Option ℝ),
      correction 0 partflag pcRes paRes =
        some (if partflag = "AllSplit" then CorrectionOut.triple 0 0 0
          else CorrectionOut.scalar 0) := by
  intro pf pcRes paRes
  unfold correction
  rw [if_pos rfl]

/-- Claim C8: site mapping fails (returns None, the DefectNotFoundError
signal) exactly when neither a missing site (vacancy), an added site
(interstitial), nor a substituted site (antisite/substitution) was
identified between the bulk and defect structures, that is, when
find_defect_pos produced (None, None). -/
theorem C8_defect_not_found (cs : Vec3 → (Vec3 × ℕ) × (Vec3 × ℕ))
    (fdp : Option Vec3 × Option Vec3) (bulkSites defSites : List Vec3)
    (L : Mat3) :
    disttrans cs fdp bulkSites defSites L = none ↔ fdp = (none, none) := by
  obtain ⟨b, d⟩ := fdp
  cases b <;> cases d <;> simp [disttrans]

lemma gammaLoop_step (env : GammaEnv) (fuel : ℕ) (gamma : ℝ) :
    gammaLoop env (fuel + 1) gamma =
      match do_summation env gamma with
      | DoSumRes.conv _ g =>
        if gamma > 50 then Except.error GErr.exhausted else Except.ok g
      | DoSumRes.tryAgain =>
        if gamma * 1.5 > 50 then Except.error GErr.exhausted
        else gammaLoop env fuel (gamma * 1.5)
      | DoSumRes.err e => Except.error e := rfl

/-- Claim C5: the gamma search (a) is started by find_optimal_gamma as the
outer loop from the heuristic initial candidate; (b) rejects every
candidate gamma whose converged reciprocal-sum magnitude is below 1 eV
(do_summation yields Try Again) and replaces it by 1.5 times the
candidate, failing with the GammaSearchExhausted signal if the replacement
exceeds 50; and (c) whenever the candidate gamma exceeds 50 the search
fails with an error and never returns a gamma. -/
theorem C5_gamma_search :
    (∀ (grecip : ℝ → List Vec3) (M eps : Mat3) (tol emax : ℝ) (cf gf : ℕ),
        find_optimal_gamma grecip M eps tol emax cf gf =
          gammaLoop ⟨grecip, eps, bohrVol M, tol, emax, cf⟩ gf
            (5 / bohrVol M ^ ((1 : ℝ) / 3))) ∧
    (∀ (env : GammaEnv) (fuel : ℕ) (gamma : ℝ),
        do_summation env gamma = DoSumRes.tryAgain →
        gammaLoop env (fuel + 1) gamma =
          if gamma * 1.5 > 50 then Except.error GErr.exhausted
          else gammaLoop env fuel (gamma * 1.5)) ∧
    (∀ (env : GammaEnv) (gamma v : ℝ),
        convLoop env (fun encut => get_recippart env gamma encut) env.cf
            (get_recippart env gamma 20) (get_recippart env gamma 30) 30 =
          Except.ok v →
        |v| * hart_to_ev < 1 → 0 ≤ env.tol →
        do_summation env gamma = DoSumRes.tryAgain) ∧
    (∀ (env : GammaEnv) (fuel : ℕ) (gamma : ℝ), gamma > 50 →
        ∃ e, gammaLoop env fuel gamma = Except.error e) := by
  refine ⟨fun _ _ _ _ _ _ _ => rfl, ?_, ?_, ?_⟩
  · intro env fuel gamma h
    rw [gammaLoop_step, h]
  · intro env gamma v hconv hsmall htol
    unfold do_summation
    dsimp only
    rw [hconv]
    show (if |(0 : ℝ)| * hart_to_ev > env.tol then DoSumRes.err GErr.instab
      else if |v| * hart_to_ev < 1 then DoSumRes.tryAgain
      else DoSumRes.conv v gamma) = DoSumRes.tryAgain
    rw [if_neg (by simp only [abs_zero, zero_mul]; exact not_lt.mpr htol),
      if_pos hsmall]
  · intro env fuel gamma hgamma
    cases fuel with
    | zero => exact ⟨GErr.fuelOut, rfl⟩
    | succ f =>
      rw [gammaLoop_step]
      cases h : do_summation env gamma with
      | conv v g => exact ⟨GErr.exhausted, by dsimp only; rw [if_pos hgamma]⟩
      | tryAgain => exact ⟨GErr.exhausted, by dsimp only; rw [if_pos (by nlinarith)]⟩
      | err e => exact ⟨e, rfl⟩

lemma get_recippart_env0 (gamma encut : ℝ) : get_recippart env0 gamma encut = 0 := by
  unfold get_recippart env0 grecip0
  simp

lemma convLoop_env0 (gamma : ℝ) :
    convLoop env0 (fun encut => get_recippart env0 gamma encut) env0.cf
      (get_recippart env0 gamma 20) (get_recippart env0 gamma 30) 30 =
      Except.ok 0 := by
  rw [get_recippart_env0, get_recippart_env0,
    show env0.cf = 4 + 1 from rfl]
  unfold convLoop
  rw [if_neg (by norm_num [env0, hart_to_ev])]

/-- Witness for C5 at concrete inputs: a rejected candidate at gamma = 40
whose replacement 60 exceeds 50 makes the search fail with the exhaustion
error; the below-1-eV rejection and the beyond-50 failure are each
instantiated with their hypotheses discharged. -/
theorem C5_witness :
    (do_summation env0 40 = DoSumRes.tryAgain) ∧
    (gammaLoop env0 1 40 = Except.error GErr.exhausted) ∧
    (∃ e, gammaLoop env0 3 60 = Except.error e) := by
  have hds : do_summation env0 40 = DoSumRes.tryAgain :=
    C5_gamma_search.2.2.1 env0 40 0 (convLoop_env0 40)
      (by norm_num [hart_to_ev]) (by norm_num [env0])
  refine ⟨hds, ?_, C5_gamma_search.2.2.2 env0 3 60 (by norm_num)⟩
  exact (C5_gamma_search.2.1 env0 0 40 hds).trans (if_pos (by norm_num))

/-- Claim C7: the reciprocal grid build iterates over every grid index
triple with indices at or above half the grid dimension wrapped to
negative, skips the signed (0,0,0) term, accumulates
exp(-g.D.g/(4 gamma^2))/(g.D.g) for g = i*b1 + j*b2 + k*b3 in reciprocal
Bohr units into a complex 3D array, applies a forward 3D discrete Fourier
transform, scales by 4 pi / volume, and returns the real part. -/
theorem C7_reciprocal_grid_build :
    (∀ (M eps : Mat3) (gamma : ℝ) (nx ny nz : ℕ) (x : Fin nx) (y : Fin ny)
        (z : Fin nz),
        reciprocal_sum M eps gamma nx ny nz x y z =
          (((4 * Real.pi / (|M.det| * ang_to_bohr ^ 3) : ℝ) : ℂ) *
            ∑ a, ∑ b, ∑ c, g_array M eps gamma nx ny nz a b c *
              Complex.exp (-2 * Real.pi * Complex.I *
                (((a : ℕ) : ℂ) * ((x : ℕ) : ℂ) / ((nx : ℕ) : ℂ)
                  + ((b : ℕ) : ℂ) * ((y : ℕ) : ℂ) / ((ny : ℕ) : ℂ)
                  + ((c : ℕ) : ℂ) * ((z : ℕ) : ℂ) / ((nz : ℕ) : ℂ)))).re) ∧
    (∀ (M eps : Mat3) (gamma : ℝ) (nx ny nz : ℕ) (a : Fin nx) (b : Fin ny)
        (c : Fin nz),
        wrapIdx nx (a : ℕ) = 0 → wrapIdx ny (b : ℕ) = 0 →
        wrapIdx nz (c : ℕ) = 0 →
        g_array M eps gamma nx ny nz a b c = 0) ∧
    (∀ (M eps : Mat3) (gamma : ℝ) (nx ny nz : ℕ) (a : Fin nx) (b : Fin ny)
        (c : Fin nz),
        ¬(wrapIdx nx (a : ℕ) = 0 ∧ wrapIdx ny (b : ℕ) = 0 ∧
            wrapIdx nz (c : ℕ) = 0) →
        g_array M eps gamma nx ny nz a b c =
          Complex.ofReal (Real.exp (-quadForm eps (fun m =>
              (wrapIdx nx (a : ℕ) : ℝ) * recipBohrRow M 0 m
                + (wrapIdx ny (b : ℕ) : ℝ) * recipBohrRow M 1 m
                + (wrapIdx nz (c : ℕ) : ℝ) * recipBohrRow M 2 m) /
              (4 * gamma ^ 2)) /
            quadForm eps (fun m =>
              (wrapIdx nx (a : ℕ) : ℝ) * recipBohrRow M 0 m
                + (wrapIdx ny (b : ℕ) : ℝ) * recipBohrRow M 1 m
                + (wrapIdx nz (c : ℕ) : ℝ) * recipBohrRow M 2 m))) ∧
    (∀ (n a : ℕ), a < n → n / 2 ≤ a →
        wrapIdx n a = (a : ℤ) - (n : ℤ) ∧ wrapIdx n a < 0) ∧
    (∀ (n a : ℕ), a < n / 2 → wrapIdx n a = (a : ℤ)) := by
  refine ⟨fun _ _ _ _ _ _ _ _ _ => rfl, ?_, ?_, ?_, ?_⟩
  · intro M eps gamma nx ny nz a b c hs ht hu
    unfold g_array
    dsimp only
    rw [if_pos ⟨hs, ht, hu⟩]
  · intro M eps gamma nx ny nz a b c h
    unfold g_array
    dsimp only
    rw [if_neg h]
  · intro n a h1 h2
    unfold wrapIdx
    rw [if_neg (Nat.not_lt.mpr h2)]
    exact ⟨rfl, by omega⟩
  · intro n a h
    unfold wrapIdx
    rw [if_pos h]

/-- Witness for C7: the origin skip, the generic entry, and both wrap
behaviours instantiated at concrete indices with the hypotheses
discharged. -/
theorem C7_witness :
    (g_array 1 1 1 2 2 2 0 0 0 = 0) ∧
    (g_array 1 1 1 2 2 2 1 0 0 =
      Complex.ofReal (Real.exp (-quadForm 1 (fun m =>
          (wrapIdx 2 ((1 : Fin 2) : ℕ) : ℝ) * recipBohrRow 1 0 m
            + (wrapIdx 2 ((0 : Fin 2) : ℕ) : ℝ) * recipBohrRow 1 1 m
            + (wrapIdx 2 ((0 : Fin 2) : ℕ) : ℝ) * recipBohrRow 1 2 m) /
          (4 * 1 ^ 2)) /
        quadForm 1 (fun m =>
          (wrapIdx 2 ((1 : Fin 2) : ℕ) : ℝ) * recipBohrRow 1 0 m
            + (wrapIdx 2 ((0 : Fin 2) : ℕ) : ℝ) * recipBohrRow 1 1 m
            + (wrapIdx 2 ((0 : Fin 2) : ℕ) : ℝ) * recipBohrRow 1 2 m))) ∧
    (wrapIdx 4 2 = (2 : ℤ) - (4 : ℤ) ∧ wrapIdx 4 2 < 0) ∧
    (wrapIdx 4 1 = (1 : ℤ)) :=
  ⟨C7_reciprocal_grid_build.2.1 1 1 1 2 2 2 0 0 0 (by decide) (by decide)
      (by decide),
   C7_reciprocal_grid_build.2.2.1 1 1 1 2 2 2 1 0 0 (by decide),
   C7_reciprocal_grid_build.2.2.2.1 4 2 (by decide) (by decide),
   C7_reciprocal_grid_build.2.2.2.2 4 1 (by decide)⟩

lemma argminUpTo_succ (f : ℕ → ℝ) (m : ℕ) :
    argminUpTo f (m + 1) =
      if f (m + 1) < f (argminUpTo f m) then m + 1 else argminUpTo f m := rfl

/-- Claim C4: for every nonzero displacement r, the Madelung potential
returned by anisotropic_madelung_potential equals (real-space sum at r
+ q times the grid value at the index nearest the fractional coordinate of
r - self-interaction term q*pi/(volume*gamma^2)), converted to eV by
multiplying with 27.2114, with no surface term included. -/
theorem C4_madelung_formula (erfc : ℝ → ℝ) (M : Mat3) (dim : ℕ × ℕ × ℕ)
    (g_sum : ℕ → ℕ → ℕ → ℝ) (r : Vec3) (dieltens : Mat3)
    (q gamma tolerance : ℝ) (i j k : ℕ) (dir : ℝ)
    (_hr : r ≠ 0)
    (hidx : getgridind M dim (fracCoords M r) = some (i, j, k))
    (hdir : real_sum erfc (bohrRow M 0) (bohrRow M 1) (bohrRow M 2) r q
        dieltens gamma tolerance = some dir) :
    anisotropic_madelung_potential erfc M dim g_sum r dieltens q gamma
        tolerance =
      some ((dir + q * g_sum i j k - q * Real.pi / (bohrVol M * gamma ^ 2))
        * 27.2114) := by
  unfold anisotropic_madelung_potential get_g_sum_at_r
  rw [hidx, Option.map_some']
  show (real_sum erfc (bohrRow M 0) (bohrRow M 1) (bohrRow M 2) r q dieltens
      gamma tolerance).map _ = _
  rw [hdir, Option.map_some']
  congr 1
  unfold hart_to_ev
  ring

lemma rhalf_ne_zero : rhalf ≠ 0 := by
  intro h
  have h0 := congrFun h 0
  norm_num [rhalf] at h0

lemma rowLen_one (i : Fin 3) : rowLen (1 : Mat3) i = 1 := by
  unfold rowLen vnorm dot3
  fin_cases i <;> simp +decide [Matrix.one_apply, Real.sqrt_one]

lemma gridIdx1_two_half : gridIdx1 2 1 (1 / 2) = some 1 := by
  have hfr : Int.fract ((1 : ℝ) / 2) = 1 / 2 :=
    Int.fract_eq_self.mpr ⟨by norm_num, by norm_num⟩
  unfold gridIdx1
  dsimp only
  rw [hfr, show (2 : ℕ) - 1 = 0 + 1 from rfl, argminUpTo_succ]
  norm_num [argminUpTo, abs_of_nonneg, abs_of_nonpos]

lemma gridIdx1_two_zero : gridIdx1 2 1 0 = some 0 := by
  unfold gridIdx1
  dsimp only
  rw [Int.fract_zero, show (2 : ℕ) - 1 = 0 + 1 from rfl, argminUpTo_succ]
  norm_num [argminUpTo, abs_of_nonneg, abs_of_nonpos]

lemma fracCoords_one (r : Vec3) : fracCoords 1 r = r := by
  unfold fracCoords
  rw [inv_one, Matrix.vecMul_one]

lemma getgridind_rhalf :
    getgridind 1 (2, 2, 2) rhalf = some (1, 0, 0) := by
  unfold getgridind
  dsimp only
  rw [rowLen_one 0, rowLen_one 1, rowLen_one 2,
    show rhalf 0 = 1 / 2 from by simp +decide [rhalf],
    show rhalf 1 = 0 from by simp +decide [rhalf],
    show rhalf 2 = 0 from by simp +decide [rhalf],
    gridIdx1_two_half, gridIdx1_two_zero]

/-- Witness for C4 at a concrete nonzero displacement on which the grid
lookup yields index (1, 0, 0) and the real-space sum converges to 0. -/
theorem C4_witness :
    anisotropic_madelung_potential zfun 1 (2, 2, 2) zgrid rhalf 1 1 1 1 =
      some ((0 + 1 * zgrid 1 0 0 - 1 * Real.pi / (bohrVol 1 * 1 ^ 2))
        * 27.2114) :=
  C4_madelung_formula zfun 1 (2, 2, 2) zgrid rhalf 1 1 1 1 1 0 0 0
    rhalf_ne_zero
    (by rw [fracCoords_one]; exact getgridind_rhalf)
    (real_sum_zfun _ _ _ _ _ _ _ _ one_pos)
